import Mathlib

/-!
Verification of the libthread_db host library.

This development gives a shallow embedding of the two core components of the
library and proves (or refutes) the specification's claims about them:

* `src/proc_service.rs` — word-granular remote memory access (`ps_pdread`,
  `ps_pdwrite`, the `Stopper` stop/resume guard, `ps_pglobal_lookup`).
  Target memory is modelled as a function `Nat → Nat` from byte addresses to
  byte values; one `ptrace` word transfer moves `ws` consecutive bytes
  (`ws = size_of::<usize>()`, kept abstract with `0 < ws`).  Success or
  failure of the single-word `PTRACE_PEEKDATA` / `PTRACE_POKEDATA` calls is
  modelled by oracles `vR vW : Nat → Bool` on the word's byte address.

* `src/lib.rs` — the address-space symbol resolver (`get_symbols`,
  `get_symbols_for_library`) and the symbol-resolution part of
  `Library::attach`.  The file system and ELF parser (the `goblin` crate) are
  modelled by an oracle `String → LibFile` giving, per path, either an open
  failure, a read/parse failure, or the parsed list of `(name, st_value)`
  symbol-table entries.
-/

namespace LibThreadDb

/-- Return codes of the proc_service callbacks (`PsErr` in proc_service.rs). -/
inductive PsErr where
  | Ok
  | Err
  | BadPID
  | BadLID
  | BadAddr
  | NoSym
  | NoFRegs
deriving DecidableEq

/-- Return codes of libthread_db calls (`TdErr` in thread_db.rs); only the
variants this development mentions are listed together with the catch-all
groups of the enum. -/
inductive TdErr where
  | Ok
  | Err
  | NoThr
  | NoSv
  | NoLWP
  | BadPH
  | BadTH
  | BadSH
  | BadTA
  | BadKEY
  | NoMsg
  | NoFPRegs
  | NoLibthread
  | NoEvent
  | NoCapab
  | DbErr
  | NoAplic
  | NoTSD
  | Malloc
  | PartialReg
  | NoXregs
  | TLSDefer
  | NoTalloc
  | Version
  | NoTLS
deriving DecidableEq

/-- The word of `ws` bytes of target memory starting at byte address `a`,
in address order.  This is the value `PTRACE_PEEKDATA` transfers: copying the
word's in-memory bytes reproduces the target bytes `a, a+1, …, a+ws-1`
(host and target share one architecture, so byte order cancels out). -/
def readWord (ws : Nat) (mem : Nat → Nat) (a : Nat) : List Nat :=
  (List.range ws).map (fun i => mem (a + i))

/-- Overwrite the `w.length` bytes of memory starting at byte address `a`
with the bytes of `w`; the effect of one `PTRACE_POKEDATA` (with
`w.length = ws`). -/
def writeBytes (mem : Nat → Nat) (a : Nat) (w : List Nat) : Nat → Nat :=
  fun x => if a ≤ x ∧ x - a < w.length then w.getD (x - a) 0 else mem x

/-- `read_data` from proc_service.rs: one `PTRACE_PEEKDATA`, reading the word
at `addr`; failure (modelled by the oracle `vR`) yields the generic error. -/
def read_data (ws : Nat) (vR : Nat → Bool) (mem : Nat → Nat) (addr : Nat) :
    Except PsErr (List Nat) :=
  if vR addr then Except.ok (readWord ws mem addr) else Except.error PsErr.Err

/-- `write_data` from proc_service.rs: one `PTRACE_POKEDATA`, writing the word
`w` at `addr`; failure (modelled by the oracle `vW`) yields the generic
error and leaves memory unchanged. -/
def write_data (vW : Nat → Bool) (mem : Nat → Nat) (addr : Nat) (w : List Nat) :
    Except PsErr (Nat → Nat) :=
  if vW addr then Except.ok (writeBytes mem addr w) else Except.error PsErr.Err

/-- The word-transfer loop of `ps_pdread` (proc_service.rs, lines 139-165),
run after the `Stopper` has been acquired.  Returns the bytes copied into the
caller's buffer so far together with the return code: each iteration reads one
word; while more than one word remains the full word is stored and the loop
advances, otherwise the first `size` bytes of the word are stored and the loop
ends with `Ok`.  A failing word read returns its error at once, keeping the
bytes already copied. -/
def ps_pdread (ws : Nat) (hws : 0 < ws) (vR : Nat → Bool) (mem : Nat → Nat)
    (src size : Nat) : List Nat × PsErr :=
  match read_data ws vR mem src with
  | Except.error e => ([], e)
  | Except.ok data =>
    if h : ws < size then
      let r := ps_pdread ws hws vR mem (src + ws) (size - ws)
      (data ++ r.1, r.2)
    else
      (data.take size, PsErr.Ok)
termination_by size
decreasing_by omega

/-- The word-transfer loop of `ps_pdwrite` (proc_service.rs, lines 168-203),
run after the `Stopper` has been acquired.  Returns the resulting target
memory together with the return code: while at least one full word of source
bytes remains it is written and the loop advances (stopping with `Ok` when the
word was the exact remainder); the final partial word (also the `size = 0`
case) is a read-modify-write that overwrites exactly the leading
`src.length` bytes of the existing word.  A failing word transfer returns its
error at once, keeping the words already written. -/
def ps_pdwrite (ws : Nat) (hws : 0 < ws) (vR vW : Nat → Bool) (mem : Nat → Nat)
    (dst : Nat) (src : List Nat) : (Nat → Nat) × PsErr :=
  if h1 : ws ≤ src.length then
    match write_data vW mem dst (src.take ws) with
    | Except.error e => (mem, e)
    | Except.ok mem' =>
      if h2 : src.length = ws then
        (mem', PsErr.Ok)
      else
        ps_pdwrite ws hws vR vW mem' (dst + ws) (src.drop ws)
  else
    match read_data ws vR mem dst with
    | Except.error e => (mem, e)
    | Except.ok word =>
      match write_data vW mem dst (src ++ word.drop src.length) with
      | Except.error e => (mem, e)
      | Except.ok mem' => (mem', PsErr.Ok)
termination_by src.length
decreasing_by simp; omega

/-- The all-transfers-succeed oracle. -/
def always : Nat → Bool := fun _ => true

/-- All-zero target memory, used for concrete instances. -/
def memZero : Nat → Nat := fun _ => 0

/-! ### Pointwise behaviour of `writeBytes` compositions -/

/-- Writing the first word of `b` and then the rest of `b` one word further is
the same as writing `b`. -/
theorem writeBytes_append_word (mem : Nat → Nat) (dst ws : Nat) (b : List Nat)
    (h1 : ws ≤ b.length) (x : Nat) :
    writeBytes (writeBytes mem dst (b.take ws)) (dst + ws) (b.drop ws) x
      = writeBytes mem dst b x := by
  simp only [writeBytes, List.length_take, List.length_drop]
  rw [inf_eq_left.mpr h1]
  by_cases hx2 : dst + ws ≤ x ∧ x - (dst + ws) < b.length - ws
  · rw [if_pos hx2, if_pos (show dst ≤ x ∧ x - dst < b.length by omega)]
    rw [List.getD_eq_getElem?_getD, List.getD_eq_getElem?_getD, List.getElem?_drop]
    congr 2
    omega
  · rw [if_neg hx2]
    by_cases hx1 : dst ≤ x ∧ x - dst < ws
    · rw [if_pos hx1, if_pos (show dst ≤ x ∧ x - dst < b.length by omega)]
      rw [List.getD_eq_getElem?_getD, List.getD_eq_getElem?_getD,
        List.getElem?_take, if_pos (by omega)]
    · rw [if_neg hx1, if_neg (by omega)]

/-- The read-modify-write word for a final partial write: writing back the
existing word with only its leading `b.length` bytes replaced by `b` has the
same effect as writing just the bytes of `b`. -/
theorem writeBytes_rmw (mem : Nat → Nat) (dst ws : Nat) (b : List Nat)
    (h1 : b.length < ws) (x : Nat) :
    writeBytes mem dst (b ++ (readWord ws mem dst).drop b.length) x
      = writeBytes mem dst b x := by
  simp only [writeBytes, List.length_append, List.length_drop, readWord,
    List.length_map, List.length_range]
  by_cases hx1 : dst ≤ x ∧ x - dst < b.length
  · rw [if_pos (by omega), if_pos hx1]
    rw [List.getD_eq_getElem?_getD, List.getD_eq_getElem?_getD,
      List.getElem?_append_left (by omega)]
  · rw [if_neg hx1]
    by_cases hx2 : dst ≤ x ∧ x - dst < ws
    · rw [if_pos (by omega)]
      rw [List.getD_eq_getElem?_getD,
        List.getElem?_append_right (by omega), List.getElem?_drop,
        List.getElem?_map, List.getElem?_range (by omega)]
      simp only [Option.map_some', Option.getD_some]
      congr 1
      omega
    · rw [if_neg (by omega)]

/-! ### The transfer loops under the all-transfers-succeed oracle -/

/-- With every word read succeeding, `ps_pdread` returns exactly the `size`
bytes of target memory starting at `src`, with the success code. -/
theorem ps_pdread_always (ws : Nat) (hws : 0 < ws) (mem : Nat → Nat) :
    ∀ size src, ps_pdread ws hws always mem src size
      = ((List.range size).map (fun i => mem (src + i)), PsErr.Ok) := by
  intro size
  induction size using Nat.strong_induction_on with
  | _ size ih =>
    intro src
    rw [ps_pdread]
    simp only [read_data, always, if_true]
    by_cases h : ws < size
    · rw [dif_pos h, ih (size - ws) (by omega) (src + ws)]
      have hsz : size = ws + (size - ws) := by omega
      conv_rhs => rw [hsz, List.range_add]
      rw [List.map_append, List.map_map]
      simp only [readWord, Function.comp_def, Nat.add_assoc]
    · rw [dif_neg h]
      have hmin : size ⊓ ws = size := inf_eq_left.mpr (by omega)
      simp only [readWord, ← List.map_take, List.take_range, hmin]

/-- With every word transfer succeeding, `ps_pdwrite` succeeds and its
resulting memory is `writeBytes mem dst b`. -/
theorem ps_pdwrite_always (ws : Nat) (hws : 0 < ws) :
    ∀ n (b : List Nat), b.length = n → ∀ (mem : Nat → Nat) (dst : Nat),
      (ps_pdwrite ws hws always always mem dst b).2 = PsErr.Ok ∧
      ∀ x, (ps_pdwrite ws hws always always mem dst b).1 x
        = writeBytes mem dst b x := by
  intro n
  induction n using Nat.strong_induction_on with
  | _ n ih =>
    intro b hb mem dst
    rw [ps_pdwrite]
    simp only [write_data, read_data, always, if_true]
    by_cases h1 : ws ≤ b.length
    · rw [dif_pos h1]
      by_cases h2 : b.length = ws
      · rw [dif_pos h2]
        refine ⟨rfl, fun x => ?_⟩
        rw [← h2, List.take_length]
      · rw [dif_neg h2]
        obtain ⟨hcode, hmem⟩ := ih (n - ws) (by omega) (b.drop ws)
          (by simp [hb]) (writeBytes mem dst (b.take ws)) (dst + ws)
        refine ⟨hcode, fun x => ?_⟩
        rw [hmem x, writeBytes_append_word mem dst ws b h1 x]
    · rw [dif_neg h1]
      refine ⟨rfl, fun x => ?_⟩
      exact writeBytes_rmw mem dst ws b (by omega) x

/-! ### Error-path behaviour of the transfer loops (any oracle) -/

/-- The byte addresses of the words the `ps_pdread` loop transfers for a
`size`-byte read at `src` — `src, src + ws, …`, one per iteration, a single
word when `size ≤ ws` (including `size = 0`). -/
def readWordAddrs (ws : Nat) (hws : 0 < ws) (src size : Nat) : List Nat :=
  if _h : ws < size then src :: readWordAddrs ws hws (src + ws) (size - ws)
  else [src]
termination_by size
decreasing_by omega

/-- Whether every word transfer the `ps_pdwrite` loop attempts for writing
`src` at `dst` succeeds: one poke per full source word, and a peek plus a
poke at the final partial word (also taken when `src` is shorter than one
word).  Short-circuiting matches the loop: after a failing transfer nothing
further is attempted. -/
def writeTransfersOk (ws : Nat) (hws : 0 < ws) (vR vW : Nat → Bool)
    (dst : Nat) (src : List Nat) : Bool :=
  if _h1 : ws ≤ src.length then
    vW dst && (if _h2 : src.length = ws then true
      else writeTransfersOk ws hws vR vW (dst + ws) (src.drop ws))
  else vR dst && vW dst
termination_by src.length
decreasing_by simp; omega

/-- `ps_pdread` returns the success code when every word read of the call
succeeds and exactly the generic error otherwise: a failing word transfer
never yields a success code, nor a more specific error code. -/
theorem ps_pdread_code_iff (ws : Nat) (hws : 0 < ws) (vR : Nat → Bool)
    (mem : Nat → Nat) :
    ∀ size src, (ps_pdread ws hws vR mem src size).2
      = if (readWordAddrs ws hws src size).all vR then PsErr.Ok
        else PsErr.Err := by
  intro size
  induction size using Nat.strong_induction_on with
  | _ size ih =>
    intro src
    rw [ps_pdread, readWordAddrs]
    by_cases h : ws < size
    · cases hR : vR src
      · simp [read_data, hR, h]
      · simpa [read_data, hR, h] using ih (size - ws) (by omega) (src + ws)
    · cases hR : vR src
      · simp [read_data, hR, h]
      · simp [read_data, hR, h]

/-- `ps_pdwrite` returns the success code when every word transfer the call
attempts succeeds and exactly the generic error otherwise: a failing word
transfer never yields a success code, nor a more specific error code. -/
theorem ps_pdwrite_code_iff (ws : Nat) (hws : 0 < ws) (vR vW : Nat → Bool) :
    ∀ n (b : List Nat), b.length = n → ∀ (mem : Nat → Nat) (dst : Nat),
      (ps_pdwrite ws hws vR vW mem dst b).2
        = if writeTransfersOk ws hws vR vW dst b then PsErr.Ok
          else PsErr.Err := by
  intro n
  induction n using Nat.strong_induction_on with
  | _ n ih =>
    intro b hb mem dst
    rw [ps_pdwrite, writeTransfersOk]
    by_cases h1 : ws ≤ b.length
    · cases hW : vW dst
      · simp [write_data, h1, hW]
      · by_cases h2 : b.length = ws
        · simp [write_data, h1, hW, h2]
        · simpa [write_data, h1, hW, h2] using
            ih (n - ws) (by omega) (b.drop ws) (by simp [hb])
              (writeBytes mem dst (b.take ws)) (dst + ws)
    · cases hR : vR dst
      · simp [read_data, h1, hR]
      · cases hW : vW dst
        · simp [read_data, write_data, h1, hR, hW]
        · simp [read_data, write_data, h1, hR, hW]

/-- Whatever words succeed or fail, `ps_pdwrite` never modifies a byte
outside the requested range `[dst, dst + b.length)`. -/
theorem ps_pdwrite_frame (ws : Nat) (hws : 0 < ws) (vR vW : Nat → Bool) :
    ∀ n (b : List Nat), b.length = n → ∀ (mem : Nat → Nat) (dst x : Nat),
      (x < dst ∨ dst + b.length ≤ x) →
      (ps_pdwrite ws hws vR vW mem dst b).1 x = mem x := by
  intro n
  induction n using Nat.strong_induction_on with
  | _ n ih =>
    intro b hb mem dst x hx
    rw [ps_pdwrite]
    by_cases h1 : ws ≤ b.length
    · cases hW : vW dst
      · simp [write_data, h1, hW]
      · have hout : writeBytes mem dst (b.take ws) x = mem x := by
          rw [writeBytes, if_neg (by simp only [List.length_take]; omega)]
        by_cases h2 : b.length = ws
        · simp only [write_data, h1, hW, dif_pos h1, if_true, dif_pos h2]
          exact hout
        · simp only [write_data, h1, hW, dif_pos h1, if_true, dif_neg h2, dite_true]
          rw [ih (n - ws) (by omega) (b.drop ws) (by simp [hb]) _ (dst + ws) x
            (by simp only [List.length_drop]; omega)]
          exact hout
    · cases hR : vR dst
      · simp [read_data, h1, hR]
      · cases hW : vW dst
        · simp [read_data, write_data, h1, hR, hW]
        · simp only [read_data, write_data, h1, hR, hW, dif_neg h1, if_true, dite_false]
          rw [writeBytes_rmw mem dst ws b (by omega) x]
          rw [writeBytes, if_neg (by omega)]

/-! ### Claims about the memory-access protocol -/

/-- C2: writing byte sequence `b` of length `n` at address `A` through the
write-memory callback and then reading `n` bytes from `A` through the
read-memory callback returns exactly `b`, with both calls succeeding, for
`n ∈ {1, word_size - 1, word_size, word_size + 1, 3 * word_size + 2}`. -/
theorem c2_read_write_round_trip (ws : Nat) (hws : 0 < ws) (mem : Nat → Nat)
    (A : Nat) (b : List Nat) (n : Nat) (hlen : b.length = n)
    (hn : n = 1 ∨ n = ws - 1 ∨ n = ws ∨ n = ws + 1 ∨ n = 3 * ws + 2) :
    (ps_pdwrite ws hws always always mem A b).2 = PsErr.Ok ∧
    ps_pdread ws hws always (ps_pdwrite ws hws always always mem A b).1 A n
      = (b, PsErr.Ok) := by
  obtain ⟨hcode, hmem⟩ := ps_pdwrite_always ws hws b.length b rfl mem A
  refine ⟨hcode, ?_⟩
  rw [ps_pdread_always ws hws _ n A, Prod.mk.injEq]
  refine ⟨?_, rfl⟩
  have hval : ∀ i, i < n →
      (ps_pdwrite ws hws always always mem A b).1 (A + i) = b.getD i 0 := by
    intro i hi
    rw [hmem (A + i), writeBytes, if_pos (by omega)]
    congr 1
    omega
  refine List.ext_getElem (by simp [hlen]) ?_
  intro i h1 h2
  simp only [List.getElem_map, List.getElem_range]
  rw [hval i (by simpa using h1), List.getD_eq_getElem b 0 h2]

/-- C2 witness: round trip of the 9-byte sequence 1..9 at address 3 with an
8-byte word. -/
theorem c2_read_write_round_trip_witness :
    (ps_pdwrite 8 (by norm_num) always always memZero 3
        [1, 2, 3, 4, 5, 6, 7, 8, 9]).2 = PsErr.Ok ∧
    ps_pdread 8 (by norm_num) always
        (ps_pdwrite 8 (by norm_num) always always memZero 3
          [1, 2, 3, 4, 5, 6, 7, 8, 9]).1 3 9
      = ([1, 2, 3, 4, 5, 6, 7, 8, 9], PsErr.Ok) :=
  c2_read_write_round_trip 8 (by norm_num) memZero 3 _ 9 rfl
    (Or.inr (Or.inr (Or.inr (Or.inl rfl))))

/-- C3: a successful write of `n` bytes at `A` with `0 < n < word_size`
(read-modify-write of the final partial word) leaves every byte outside the
written range `[A, A + n)` — in particular the `word_size - n` remaining
bytes of the containing word — exactly as it was. -/
theorem c3_write_locality (ws : Nat) (hws : 0 < ws) (mem : Nat → Nat) (A : Nat)
    (b : List Nat) (hpos : 0 < b.length) (hlt : b.length < ws) :
    (ps_pdwrite ws hws always always mem A b).2 = PsErr.Ok ∧
    ∀ x, (x < A ∨ A + b.length ≤ x) →
      (ps_pdwrite ws hws always always mem A b).1 x = mem x := by
  obtain ⟨hcode, hmem⟩ := ps_pdwrite_always ws hws b.length b rfl mem A
  refine ⟨hcode, fun x hx => ?_⟩
  rw [hmem x, writeBytes, if_neg (by omega)]

/-- C3 witness: writing the single byte 7 at address 100 leaves address 101
(same word) unchanged. -/
theorem c3_write_locality_witness :
    (ps_pdwrite 8 (by norm_num) always always memZero 100 [7]).1 101
      = memZero 101 :=
  (c3_write_locality 8 (by norm_num) memZero 100 [7] (by norm_num)
    (by norm_num)).2 101 (Or.inr (by norm_num))

/-- Oracle under which only the word at byte addresses below 8 can be
transferred; the second word of a 16-byte transfer starting at 0 fails. -/
def vBelow8 : Nat → Bool := fun a => decide (a < 8)

/-- C8 (amended): a read or write call returns the success code exactly when
every word transfer it attempts succeeds, and exactly the generic error code
`Err` whenever an internal word transfer fails — never a success code and
never a more specific code; and a write never touches a byte outside the
requested range.  But the operation is not atomic — whole words transferred
before the failing word keep their transferred values (see the
counterexample). -/
theorem c8_generic_error_and_frame (ws : Nat) (hws : 0 < ws)
    (vR vW : Nat → Bool) (mem : Nat → Nat) :
    (∀ src size, (ps_pdread ws hws vR mem src size).2
      = if (readWordAddrs ws hws src size).all vR then PsErr.Ok
        else PsErr.Err) ∧
    (∀ dst b, (ps_pdwrite ws hws vR vW mem dst b).2
      = if writeTransfersOk ws hws vR vW dst b then PsErr.Ok
        else PsErr.Err) ∧
    (∀ dst b x, (x < dst ∨ dst + b.length ≤ x) →
      (ps_pdwrite ws hws vR vW mem dst b).1 x = mem x) := by
  refine ⟨fun src size => ps_pdread_code_iff ws hws vR mem size src, ?_, ?_⟩
  · intro dst b
    exact ps_pdwrite_code_iff ws hws vR vW b.length b rfl mem dst
  · intro dst b x hx
    exact ps_pdwrite_frame ws hws vR vW b.length b rfl mem dst x hx

/-- C8 witness: under the oracle failing the second word, the return code of
a 16-byte write at 0 is the generic error exactly as the transfer condition
dictates; and a 9-byte write at address 60 leaves byte 59 (outside the
range) unchanged. -/
theorem c8_generic_error_and_frame_witness :
    (ps_pdwrite 8 (by norm_num) always vBelow8 memZero 0
        [1, 1, 1, 1, 1, 1, 1, 1, 1, 1, 1, 1, 1, 1, 1, 1]).2
      = (if writeTransfersOk 8 (by norm_num) always vBelow8 0
            [1, 1, 1, 1, 1, 1, 1, 1, 1, 1, 1, 1, 1, 1, 1, 1]
          then PsErr.Ok else PsErr.Err) ∧
    (ps_pdwrite 8 (by norm_num) always always memZero 60
        [1, 2, 3, 4, 5, 6, 7, 8, 9]).1 59 = memZero 59 :=
  ⟨(c8_generic_error_and_frame 8 (by norm_num) always vBelow8 memZero).2.1
      0 [1, 1, 1, 1, 1, 1, 1, 1, 1, 1, 1, 1, 1, 1, 1, 1],
    (c8_generic_error_and_frame 8 (by norm_num) always always memZero).2.2
      60 [1, 2, 3, 4, 5, 6, 7, 8, 9] 59 (Or.inl (by norm_num))⟩

/-- C8 counterexample: a 16-byte write at address 0 whose second word
transfer fails returns the generic error, yet byte 0 has already been
overwritten (1 instead of the original 0) — a prefix of the requested range
was transferred, so the failing operation is not atomic. -/
theorem c8_counterexample :
    (ps_pdwrite 8 (by norm_num) always vBelow8 memZero 0
        [1, 1, 1, 1, 1, 1, 1, 1, 1, 1, 1, 1, 1, 1, 1, 1]).2 = PsErr.Err ∧
    (ps_pdwrite 8 (by norm_num) always vBelow8 memZero 0
        [1, 1, 1, 1, 1, 1, 1, 1, 1, 1, 1, 1, 1, 1, 1, 1]).1 0 = 1 ∧
    memZero 0 = 0 := by
  refine ⟨?_, ?_, rfl⟩ <;>
    simp [ps_pdwrite, write_data, read_data, always, vBelow8, writeBytes, memZero]

/-- C10: a zero-length read still performs (exactly) one word read at `A`,
failing precisely when that word transfer fails and copying no bytes; a
zero-length write performs the read-modify-write of the word at `A` with
nothing replaced, leaving memory unchanged, and both return success when the
word transfers succeed. -/
theorem c10_zero_length (ws : Nat) (hws : 0 < ws) (vR vW : Nat → Bool)
    (mem : Nat → Nat) (A : Nat) :
    ps_pdread ws hws vR mem A 0
      = ([], if vR A then PsErr.Ok else PsErr.Err) ∧
    (ps_pdwrite ws hws vR vW mem A []).2
      = (if vR A then (if vW A then PsErr.Ok else PsErr.Err) else PsErr.Err) ∧
    ∀ x, (ps_pdwrite ws hws vR vW mem A []).1 x = mem x := by
  refine ⟨?_, ?_, ?_⟩
  · rw [ps_pdread]
    cases hR : vR A
    · simp [read_data, hR]
    · simp [read_data, hR, Nat.not_lt.mpr (Nat.zero_le ws)]
  · rw [ps_pdwrite]
    cases hR : vR A
    · simp [read_data, hR, Nat.not_le.mpr hws]
    · cases hW : vW A
      · simp [read_data, write_data, hR, hW, Nat.not_le.mpr hws]
      · simp [read_data, write_data, hR, hW, Nat.not_le.mpr hws]
  · intro x
    rw [ps_pdwrite]
    cases hR : vR A
    · simp [read_data, hR, Nat.not_le.mpr hws]
    · cases hW : vW A
      · simp [read_data, write_data, hR, hW, Nat.not_le.mpr hws]
      · simp only [read_data, write_data, hR, hW, if_true, List.length_nil,
          List.drop_zero, List.nil_append]
        rw [dif_neg (Nat.not_le.mpr hws)]
        have hrmw := writeBytes_rmw mem A ws [] hws x
        simp only [List.length_nil, List.nil_append, List.drop_zero] at hrmw
        simp only [hrmw, writeBytes, List.length_nil]
        simp only [readWord, List.length_map, List.length_range]
        by_cases hin : A ≤ x ∧ x - A < ws
        · rw [if_pos hin, List.getD_eq_getElem?_getD, List.getElem?_map,
            List.getElem?_range hin.2]
          simp only [Option.map_some', Option.getD_some]
          congr 1
          omega
        · rw [if_neg hin]

/-! ### Stop/resume discipline (`Stopper`) -/

/-- The target's run state as seen through ptrace. -/
inductive RunState where
  | running
  | stopped
deriving DecidableEq

/-- How one read/write callback invocation ends: with a return code, or by a
Rust panic (the `.expect("could not stop process")` on `Stopper::new`). -/
inductive CallExit where
  | ret (code : PsErr)
  | panicked
deriving DecidableEq

/-- `Stopper::new` (proc_service.rs, lines 84-98).  `PTRACE_INTERRUPT` is
issued first: if it fails (`intOk = false`) the function returns an error
with the target's run state untouched.  If it succeeds the target enters
ptrace-stop; `waitpid` then observes the stop, and its own failure
(`waitOk = false`) also returns an error — but the target has already been
interrupted and remains stopped. -/
def stopper_new (intOk waitOk : Bool) (s : RunState) : Option Unit × RunState :=
  if intOk then
    if waitOk then (some (), RunState.stopped)
    else (none, RunState.stopped)
  else (none, s)

/-- `Stopper`'s `Drop` implementation (proc_service.rs, lines 100-106):
`PTRACE_CONT`, resuming the target, on every path on which the guard was
constructed. -/
def stopper_drop (_ : RunState) : RunState := RunState.running

/-- `ps_pdread` with its stop/resume discipline: acquire the `Stopper`
(panicking via `.expect` if that fails), run the word-transfer loop, and
release the guard — `Drop` runs both on the early error returns and on the
final success return. -/
def ps_pdread_call (intOk waitOk : Bool) (ws : Nat) (hws : 0 < ws)
    (vR : Nat → Bool) (mem : Nat → Nat) (src size : Nat) (s : RunState) :
    CallExit × RunState :=
  match stopper_new intOk waitOk s with
  | (none, s1) => (CallExit.panicked, s1)
  | (some _, s1) =>
    (CallExit.ret (ps_pdread ws hws vR mem src size).2, stopper_drop s1)

/-- `ps_pdwrite` with its stop/resume discipline; see `ps_pdread_call`. -/
def ps_pdwrite_call (intOk waitOk : Bool) (ws : Nat) (hws : 0 < ws)
    (vR vW : Nat → Bool) (mem : Nat → Nat) (dst : Nat) (src : List Nat)
    (s : RunState) : CallExit × RunState :=
  match stopper_new intOk waitOk s with
  | (none, s1) => (CallExit.panicked, s1)
  | (some _, s1) =>
    (CallExit.ret (ps_pdwrite ws hws vR vW mem dst src).2, stopper_drop s1)

/-- C4 (amended): a read/write call made with the target running restores the
running state whenever the stop guard is acquired, on every exit path —
including failing word transfers; and an acquisition failure of the interrupt
step itself leaves the run state unchanged.  But when the interrupt succeeds
and the stop-wait fails, the call panics with the target left stopped (see
the counterexample), so the balance does not hold on that acquisition-failure
path. -/
theorem c4_stop_resume_balance (intOk waitOk : Bool) (ws : Nat) (hws : 0 < ws)
    (vR vW : Nat → Bool) (mem : Nat → Nat) (src size dst : Nat)
    (b : List Nat) :
    (intOk = true → waitOk = true →
      (ps_pdread_call intOk waitOk ws hws vR mem src size
        RunState.running).2 = RunState.running ∧
      (ps_pdwrite_call intOk waitOk ws hws vR vW mem dst b
        RunState.running).2 = RunState.running) ∧
    (intOk = false →
      (ps_pdread_call intOk waitOk ws hws vR mem src size
        RunState.running).2 = RunState.running ∧
      (ps_pdwrite_call intOk waitOk ws hws vR vW mem dst b
        RunState.running).2 = RunState.running) := by
  constructor
  · rintro rfl rfl
    exact ⟨rfl, rfl⟩
  · rintro rfl
    cases waitOk <;> exact ⟨rfl, rfl⟩

/-- C4 witness: with acquisition succeeding and a failing word transfer
(`vBelow8` rejects the second word), both calls still restore the running
state. -/
theorem c4_stop_resume_balance_witness :
    ((true : Bool) = true → (true : Bool) = true →
      (ps_pdread_call true true 8 (by norm_num) vBelow8 memZero 0 16
        RunState.running).2 = RunState.running ∧
      (ps_pdwrite_call true true 8 (by norm_num) always vBelow8 memZero 0
        [1, 1, 1, 1, 1, 1, 1, 1, 1, 1, 1, 1, 1, 1, 1, 1]
        RunState.running).2 = RunState.running) ∧
    ((true : Bool) = false →
      (ps_pdread_call true true 8 (by norm_num) vBelow8 memZero 0 16
        RunState.running).2 = RunState.running ∧
      (ps_pdwrite_call true true 8 (by norm_num) always vBelow8 memZero 0
        [1, 1, 1, 1, 1, 1, 1, 1, 1, 1, 1, 1, 1, 1, 1, 1]
        RunState.running).2 = RunState.running) :=
  c4_stop_resume_balance true true 8 (by norm_num) vBelow8 always memZero 0 16
    0 [1, 1, 1, 1, 1, 1, 1, 1, 1, 1, 1, 1, 1, 1, 1, 1]

/-- C4 counterexample: when `PTRACE_INTERRUPT` succeeds but the `waitpid`
step of `Stopper::new` fails, the call exits by panic with the target left
stopped — its run state after the call differs from the running state it had
before, and the failed acquisition has left the target stopped. -/
theorem c4_counterexample :
    (ps_pdread_call true false 8 (by norm_num) always memZero 0 8
        RunState.running)
      = (CallExit.panicked, RunState.stopped) ∧
    RunState.stopped ≠ RunState.running := by
  exact ⟨rfl, by decide⟩

/-- C10 witness: zero-length read and write at address 5 with every word
transfer succeeding. -/
theorem c10_zero_length_witness :
    ps_pdread 8 (by norm_num) always memZero 5 0
      = ([], if always 5 then PsErr.Ok else PsErr.Err) ∧
    (ps_pdwrite 8 (by norm_num) always always memZero 5 []).2
      = (if always 5 then (if always 5 then PsErr.Ok else PsErr.Err)
          else PsErr.Err) ∧
    ∀ x, (ps_pdwrite 8 (by norm_num) always always memZero 5 []).1 x
      = memZero x :=
  c10_zero_length 8 (by norm_num) always always memZero 5

/-! ### Address-space symbol resolver (lib.rs) -/

/-- One line of the target's memory-map listing as surfaced by the
`proc_maps` crate: virtual-address start, size, file offset, and the
optional backing path. -/
structure MemMapping where
  start : Nat
  size : Nat
  offset : Nat
  filename : Option String
deriving DecidableEq

/-- What the file system plus the ELF parser yield for one path: the file
may fail to open (`File::open` error), fail to read (`read_to_end` error),
fail to parse (`goblin::elf::Elf::parse` error), or produce the list of
`(name, st_value)` entries of its symbol table in table order. -/
inductive LibFile where
  | cantOpen
  | readError
  | parseError
  | elf (syms : List (String × Nat))
deriving DecidableEq

/-- `filename.starts_with("/")`, decided on the first character. -/
def startsWithSlash (s : String) : Bool :=
  match s.data with
  | c :: _ => c = '/'
  | [] => false

/-- The symbol filter of `get_symbols_for_library`: first character of the
name alphabetic or an underscore; an empty name (first character `'\0'` in
the Rust code) is rejected.  `Char.isAlpha` is the ASCII reading of
`char::is_alphabetic`. -/
def firstCharOk (name : String) : Bool :=
  match name.data with
  | [] => false
  | c :: _ => c.isAlpha || c = '_'

/-- `HashMap::insert` on an association list: replace the value of an
existing key, otherwise append the binding. -/
def insertAssoc : List (String × Nat) → String → Nat → List (String × Nat)
  | [], k, v => [(k, v)]
  | (k', v') :: rest, k, v =>
    if k' = k then (k, v) :: rest else (k', v') :: insertAssoc rest k v

/-- Lookup in an association list (first match; `HashMap` lookup once the
keys are distinct). -/
def findA : List (String × Nat) → String → Option Nat
  | [], _ => none
  | (k, v) :: rest, s => if k = s then some v else findA rest s

/-- The symbol map `get_symbols_for_library` builds from a parsed ELF symbol
table: every entry passing the first-character filter is inserted in table
order, later duplicates overwriting earlier ones. -/
def buildLibSyms (syms : List (String × Nat)) : List (String × Nat) :=
  syms.foldl (fun m p => if firstCharOk p.1 then insertAssoc m p.1 p.2 else m) []

/-- `get_symbols_for_library` (lib.rs, lines 99-126): a file that cannot be
opened contributes the empty map (non-fatal); a read or ELF-parse failure is
propagated as an error; otherwise the filtered symbol map is returned. -/
def get_symbols_for_library (fs : String → LibFile) (filename : String) :
    Except Unit (List (String × Nat)) :=
  match fs filename with
  | LibFile.cantOpen => Except.ok []
  | LibFile.readError => Except.error ()
  | LibFile.parseError => Except.error ()
  | LibFile.elf syms => Except.ok (buildLibSyms syms)

/-- One iteration of the mapping loop of `get_symbols` (lib.rs, lines
80-94): a mapping with nonzero file offset, no backing path, or a
non-absolute path is skipped (contributes nothing); otherwise the backing
library's symbols are read. -/
def mapContribution (fs : String → LibFile) (m : MemMapping) :
    Except Unit (List (String × Nat)) :=
  if m.offset > 0 then Except.ok []
  else match m.filename with
    | none => Except.ok []
    | some f =>
      if startsWithSlash f then get_symbols_for_library fs f else Except.ok []

/-- The resolved index: symbol name to absolute address. -/
def SymIndex : Type := String → Option Nat

/-- `symbols.insert(symbol, offset + map.start())` for every entry of one
library's map, in order (`HashMap::insert` overwrites an existing name). -/
def applyEntries (acc : SymIndex) (entries : List (String × Nat))
    (start : Nat) : SymIndex :=
  entries.foldl (fun a p => fun k => if k = p.1 then some (p.2 + start) else a k) acc

/-- The mapping loop of `get_symbols`. -/
def getSymbolsGo (fs : String → LibFile) (acc : SymIndex) :
    List MemMapping → Except Unit SymIndex
  | [] => Except.ok acc
  | m :: rest =>
    match mapContribution fs m with
    | Except.error e => Except.error e
    | Except.ok entries => getSymbolsGo fs (applyEntries acc entries m.start) rest

/-- `get_symbols` (lib.rs, lines 61-96): fold the per-mapping contributions
over the memory-map listing, starting from the empty index. -/
def get_symbols (fs : String → LibFile) (maps : List MemMapping) :
    Except Unit SymIndex :=
  getSymbolsGo fs (fun _ => none) maps

/-- The address the resolved index records for `s` (`none` when resolution
failed or the name is absent). -/
def indexLookup (r : Except Unit SymIndex) (s : String) : Option Nat :=
  match r with
  | Except.ok f => f s
  | Except.error _ => none

/-- Whether mapping `m` would write an entry for name `s` into the index. -/
def contributesSym (fs : String → LibFile) (m : MemMapping) (s : String) :
    Bool :=
  match mapContribution fs m with
  | Except.ok entries => decide (s ∈ entries.map Prod.fst)
  | Except.error _ => false

/-- `Library::attach` (lib.rs, lines 35-57): a `get_symbols` failure yields
`TdErr::Err` before ptrace attach is even attempted; afterwards
`ProcHandle::new` (ptrace seize, outcome `seizeOk`) and `td_ta_new`
(outcome `taNew`) decide the result. -/
def attach (fs : String → LibFile) (maps : List MemMapping) (seizeOk : Bool)
    (taNew : TdErr) : Except TdErr SymIndex :=
  match get_symbols fs maps with
  | Except.error _ => Except.error TdErr.Err
  | Except.ok syms =>
    if seizeOk then
      match taNew with
      | TdErr.Ok => Except.ok syms
      | e => Except.error e
    else Except.error TdErr.Err

/-- `ps_pglobal_lookup` (proc_service.rs, lines 242-254): the object name is
only traced, never matched; the symbol name is looked up in the handle's
symbol index, yielding `NoSym` when absent and `Ok` with the recorded
address when present. -/
def ps_pglobal_lookup (symbols : SymIndex) (objectName symName : String) :
    PsErr × Option Nat :=
  if (symbols symName).isSome then (PsErr.Ok, symbols symName)
  else (PsErr.NoSym, none)

/-! ### Resolver lemmas -/

theorem getSymbolsGo_append (fs : String → LibFile) (xs ys : List MemMapping) :
    ∀ acc, getSymbolsGo fs acc (xs ++ ys)
      = match getSymbolsGo fs acc xs with
        | Except.error e => Except.error e
        | Except.ok a => getSymbolsGo fs a ys := by
  induction xs with
  | nil => intro acc; rfl
  | cons m rest ih =>
    intro acc
    simp only [List.cons_append, getSymbolsGo]
    cases mapContribution fs m with
    | error e => rfl
    | ok entries => exact ih _

theorem applyEntries_not_mem (entries : List (String × Nat)) (st : Nat)
    (s : String) (h : s ∉ entries.map Prod.fst) :
    ∀ acc, applyEntries acc entries st s = acc s := by
  induction entries with
  | nil => intro acc; rfl
  | cons p rest ih =>
    intro acc
    simp only [List.map_cons, List.mem_cons] at h
    push_neg at h
    show applyEntries (fun k => if k = p.1 then some (p.2 + st) else acc k)
      rest st s = acc s
    rw [ih h.2]
    simp [h.1]

theorem applyEntries_find (entries : List (String × Nat)) (st : Nat)
    (s : String) (v : Nat) (hnd : (entries.map Prod.fst).Nodup)
    (hf : findA entries s = some v) :
    ∀ acc, applyEntries acc entries st s = some (v + st) := by
  induction entries with
  | nil => simp [findA] at hf
  | cons p rest ih =>
    intro acc
    simp only [List.map_cons, List.nodup_cons] at hnd
    show applyEntries (fun k => if k = p.1 then some (p.2 + st) else acc k)
      rest st s = some (v + st)
    by_cases hs : p.1 = s
    · have hv : p.2 = v := by
        rw [findA, if_pos hs] at hf
        exact Option.some.inj hf
      rw [applyEntries_not_mem rest st s (hs ▸ hnd.1)]
      simp [hs.symm, hv]
    · rw [findA, if_neg hs] at hf
      exact ih hnd.2 hf _

theorem mem_keys_insertAssoc (l : List (String × Nat)) (k : String) (v : Nat)
    (x : String) (h : x ∈ (insertAssoc l k v).map Prod.fst) :
    x = k ∨ x ∈ l.map Prod.fst := by
  induction l with
  | nil => simpa [insertAssoc] using h
  | cons p rest ih =>
    rw [insertAssoc] at h
    by_cases hk : p.1 = k
    · rw [if_pos hk] at h
      simp only [List.map_cons, List.mem_cons] at h ⊢
      tauto
    · rw [if_neg hk] at h
      simp only [List.map_cons, List.mem_cons] at h ⊢
      rcases h with h | h
      · tauto
      · rcases ih h with h' | h' <;> tauto

theorem nodup_keys_insertAssoc (l : List (String × Nat)) (k : String) (v : Nat)
    (h : (l.map Prod.fst).Nodup) :
    ((insertAssoc l k v).map Prod.fst).Nodup := by
  induction l with
  | nil => simp [insertAssoc]
  | cons p rest ih =>
    rw [insertAssoc]
    simp only [List.map_cons, List.nodup_cons] at h
    by_cases hk : p.1 = k
    · rw [if_pos hk]
      simp only [List.map_cons, List.nodup_cons]
      exact ⟨hk ▸ h.1, h.2⟩
    · rw [if_neg hk]
      simp only [List.map_cons, List.nodup_cons]
      refine ⟨fun hmem => ?_, ih h.2⟩
      rcases mem_keys_insertAssoc rest k v p.1 hmem with h' | h'
      · exact hk h'
      · exact h.1 h'

theorem nodup_keys_buildLibSyms (syms : List (String × Nat)) :
    ((buildLibSyms syms).map Prod.fst).Nodup := by
  suffices h : ∀ init : List (String × Nat), (init.map Prod.fst).Nodup →
      ((syms.foldl (fun m p => if firstCharOk p.1 then insertAssoc m p.1 p.2
        else m) init).map Prod.fst).Nodup by
    exact h [] (by simp)
  induction syms with
  | nil => intro init hi; simpa using hi
  | cons p rest ih =>
    intro init hi
    rw [List.foldl_cons]
    by_cases hc : firstCharOk p.1
    · rw [if_pos hc]
      exact ih _ (nodup_keys_insertAssoc init p.1 p.2 hi)
    · rw [if_neg hc]
      exact ih _ hi

theorem getSymbolsGo_skip (fs : String → LibFile) (s : String) :
    ∀ (post : List MemMapping) (acc : SymIndex) (f : SymIndex),
      (∀ m' ∈ post, contributesSym fs m' s = false) →
      getSymbolsGo fs acc post = Except.ok f → f s = acc s := by
  intro post
  induction post with
  | nil =>
    intro acc f _ hgo
    cases hgo
    rfl
  | cons m rest ih =>
    intro acc f hns hgo
    rw [getSymbolsGo] at hgo
    cases hmc : mapContribution fs m with
    | error e => rw [hmc] at hgo; cases hgo
    | ok entries =>
      rw [hmc] at hgo
      have hmem : s ∉ entries.map Prod.fst := by
        have := hns m (List.mem_cons_self m rest)
        rw [contributesSym, hmc] at this
        simpa using this
      rw [ih _ f (fun m' hm' => hns m' (List.mem_cons_of_mem m hm')) hgo]
      exact applyEntries_not_mem entries m.start s hmem acc

/-! ### Claims about the symbol resolver -/

/-- File system with one library whose symbol table holds `s` at file
offset 150. -/
def fsC1 : String → LibFile := fun p =>
  if p = "/lib" then LibFile.elf [("s", 150)] else LibFile.cantOpen

/-- Two mappings of that library: the offset-0 mapping loaded at 1000 and a
second mapping with file offset 100 loaded at 5000, both of size 100. -/
def mapsC1 : List MemMapping :=
  [MemMapping.mk 1000 100 0 (some "/lib"), MemMapping.mk 5000 100 100 (some "/lib")]

/-- C1 counterexample: the symbol at file offset `O = 150` is covered by the
second mapping (`F = 100 ≤ 150 < 100 + 100`, load address `L = 5000`), so the
claim demands address `O - F + L = 5050`; but the resolver skips every
mapping with nonzero file offset and records `O + 1000 = 1150`, computed from
the offset-0 mapping. -/
theorem c1_counterexample :
    (100 ≤ 150 ∧ 150 < 100 + 100) ∧
    indexLookup (get_symbols fsC1 mapsC1) "s" = some 1150 ∧
    ¬ indexLookup (get_symbols fsC1 mapsC1) "s" = some (150 - 100 + 5000) :=
  ⟨by norm_num, by decide, by decide⟩

/-- C1 (amended): only offset-0 mappings are consulted, so the formula holds
in its `F = 0` instance: a symbol whose library table records file offset `O`,
resolved through an offset-0 absolute-path-backed mapping with load address
`L = m.start` and not contributed again by any later mapping, is recorded at
address `O - 0 + L = O + L`. -/
theorem c1_resolution_offset_zero (fs : String → LibFile)
    (pre post : List MemMapping) (m : MemMapping) (p : String)
    (syms : List (String × Nat)) (s : String) (O : Nat)
    (hoff : m.offset = 0) (hfn : m.filename = some p)
    (habs : startsWithSlash p = true) (hfs : fs p = LibFile.elf syms)
    (hsym : findA (buildLibSyms syms) s = some O)
    (hpost : ∀ m' ∈ post, contributesSym fs m' s = false)
    (hok : (get_symbols fs (pre ++ m :: post)).isOk = true) :
    indexLookup (get_symbols fs (pre ++ m :: post)) s = some (O + m.start) := by
  have hmc : mapContribution fs m = Except.ok (buildLibSyms syms) := by
    simp [mapContribution, hoff, hfn, habs, get_symbols_for_library, hfs]
  have hsplit := getSymbolsGo_append fs pre (m :: post) (fun _ => none)
  cases hpre : getSymbolsGo fs (fun _ => none) pre with
  | error e =>
    rw [get_symbols, hsplit, hpre] at hok
    simp [Except.isOk, Except.toBool] at hok
  | ok acc1 =>
    cases hrest : getSymbolsGo fs
        (applyEntries acc1 (buildLibSyms syms) m.start) post with
    | error e =>
      rw [get_symbols, hsplit, hpre] at hok
      have hok' : (getSymbolsGo fs acc1 (m :: post)).isOk = true := hok
      have : getSymbolsGo fs acc1 (m :: post) = Except.error e := by
        rw [getSymbolsGo, hmc]
        exact hrest
      rw [this] at hok'
      simp [Except.isOk, Except.toBool] at hok'
    | ok f =>
      have hall : get_symbols fs (pre ++ m :: post) = Except.ok f := by
        rw [get_symbols, hsplit, hpre]
        show getSymbolsGo fs acc1 (m :: post) = Except.ok f
        rw [getSymbolsGo, hmc]
        exact hrest
      rw [hall, indexLookup]
      rw [getSymbolsGo_skip fs s post _ f hpost hrest]
      exact applyEntries_find (buildLibSyms syms) m.start s O
        (nodup_keys_buildLibSyms syms) hsym acc1

/-- File system with one library whose symbol table holds `t` at file
offset 5. -/
def fsW : String → LibFile := fun p =>
  if p = "/l" then LibFile.elf [("t", 5)] else LibFile.cantOpen

/-- C1 witness: that library's offset-0 mapping loaded at 1000 resolves `t`
to 1005. -/
theorem c1_resolution_offset_zero_witness :
    indexLookup (get_symbols fsW
        ([] ++ MemMapping.mk 1000 100 0 (some "/l") :: [])) "t" = some 1005 :=
  c1_resolution_offset_zero fsW [] [] (MemMapping.mk 1000 100 0 (some "/l"))
    "/l" [("t", 5)] "t" 5 rfl rfl (by decide) (by decide) (by decide)
    (fun m' hm' => absurd hm' (List.not_mem_nil m')) (by decide)

/-- C5: mapping A (file-backed, offset 0, size `S1`, loaded at `a`)
immediately followed address-contiguously by anonymous mapping B (start
`a + S1`, size `s2`): a symbol of the library at file offset `O` with
`S1 ≤ O < S1 + s2` resolves to `B.start + (O - S1)`. -/
theorem c5_anonymous_extension (fs : String → LibFile) (a S1 s2 : Nat)
    (p : String) (syms : List (String × Nat)) (s : String) (O : Nat)
    (habs : startsWithSlash p = true) (hfs : fs p = LibFile.elf syms)
    (hsym : findA (buildLibSyms syms) s = some O)
    (h1 : S1 ≤ O) (h2 : O < S1 + s2) :
    indexLookup (get_symbols fs
        [MemMapping.mk a S1 0 (some p), MemMapping.mk (a + S1) s2 0 none]) s
      = some ((a + S1) + (O - S1)) := by
  have hmc : mapContribution fs (MemMapping.mk a S1 0 (some p))
      = Except.ok (buildLibSyms syms) := by
    simp [mapContribution, habs, get_symbols_for_library, hfs]
  have hmcB : mapContribution fs (MemMapping.mk (a + S1) s2 0 none)
      = Except.ok [] := rfl
  simp only [get_symbols, getSymbolsGo, hmc, hmcB, indexLookup]
  show applyEntries (fun _ => none) (buildLibSyms syms) a s
    = some ((a + S1) + (O - S1))
  rw [applyEntries_find (buildLibSyms syms) a s O
    (nodup_keys_buildLibSyms syms) hsym]
  congr 1
  omega

/-- File system with one library whose symbol table holds `u` at file
offset 120. -/
def fsC5 : String → LibFile := fun p =>
  if p = "/lib" then LibFile.elf [("u", 120)] else LibFile.cantOpen

/-- C5 witness: library mapped at 1000 with size 100, anonymous mapping at
1100 of size 50; the symbol at file offset 120 resolves to 1120. -/
theorem c5_anonymous_extension_witness :
    indexLookup (get_symbols fsC5
        [MemMapping.mk 1000 100 0 (some "/lib"),
         MemMapping.mk (1000 + 100) 50 0 none]) "u"
      = some ((1000 + 100) + (120 - 100)) :=
  c5_anonymous_extension fsC5 1000 100 50 "/lib" [("u", 120)] "u" 120
    (by decide) (by decide) (by decide) (by norm_num) (by norm_num)

/-- File system with two libraries both defining `dup`, at file offsets 10
and 20 respectively. -/
def fsC6 : String → LibFile := fun p =>
  if p = "/a" then LibFile.elf [("dup", 10)]
  else if p = "/b" then LibFile.elf [("dup", 20)]
  else LibFile.cantOpen

/-- Offset-0 mappings of the two libraries, loaded at 1000 and 2000. -/
def mapsC6 : List MemMapping :=
  [MemMapping.mk 1000 50 0 (some "/a"), MemMapping.mk 2000 50 0 (some "/b")]

/-- C6 counterexample: `dup` is resolvable from both mappings; first match
in map order would give `10 + 1000 = 1010`, but `HashMap::insert` overwrites,
so the index records the later mapping's `20 + 2000 = 2020`. -/
theorem c6_counterexample :
    indexLookup (get_symbols fsC6 mapsC6) "dup" = some 2020 ∧
    ¬ indexLookup (get_symbols fsC6 mapsC6) "dup" = some 1010 :=
  ⟨by decide, by decide⟩

/-- C6 (amended): on duplicate symbol names the index keeps the address
computed from the latest contributing mapping in map order — a later mapping
always overwrites an already-resolved entry for the same name. -/
theorem c6_last_match_wins (fs : String → LibFile) (m1 m2 : MemMapping)
    (p1 p2 : String) (sy1 sy2 : List (String × Nat)) (s : String)
    (O1 O2 : Nat)
    (hoff1 : m1.offset = 0) (hfn1 : m1.filename = some p1)
    (habs1 : startsWithSlash p1 = true) (hfs1 : fs p1 = LibFile.elf sy1)
    (hsym1 : findA (buildLibSyms sy1) s = some O1)
    (hoff2 : m2.offset = 0) (hfn2 : m2.filename = some p2)
    (habs2 : startsWithSlash p2 = true) (hfs2 : fs p2 = LibFile.elf sy2)
    (hsym2 : findA (buildLibSyms sy2) s = some O2) :
    indexLookup (get_symbols fs [m1, m2]) s = some (O2 + m2.start) := by
  have hmc1 : mapContribution fs m1 = Except.ok (buildLibSyms sy1) := by
    simp [mapContribution, hoff1, hfn1, habs1, get_symbols_for_library, hfs1]
  have hmc2 : mapContribution fs m2 = Except.ok (buildLibSyms sy2) := by
    simp [mapContribution, hoff2, hfn2, habs2, get_symbols_for_library, hfs2]
  simp only [get_symbols, getSymbolsGo, hmc1, hmc2, indexLookup]
  exact applyEntries_find (buildLibSyms sy2) m2.start s O2
    (nodup_keys_buildLibSyms sy2) hsym2 _

/-- C6 witness: both libraries of `fsC6` define `dup`; the index records the
later mapping's address. -/
theorem c6_last_match_wins_witness :
    indexLookup (get_symbols fsC6
        [MemMapping.mk 1000 50 0 (some "/a"),
         MemMapping.mk 2000 50 0 (some "/b")]) "dup"
      = some (20 + 2000) :=
  c6_last_match_wins fsC6 (MemMapping.mk 1000 50 0 (some "/a"))
    (MemMapping.mk 2000 50 0 (some "/b")) "/a" "/b" [("dup", 10)]
    [("dup", 20)] "dup" 10 20 rfl rfl (by decide) (by decide) (by decide)
    rfl rfl (by decide) (by decide) (by decide)

/-- C7: a mapped file that cannot be opened contributes no symbols and does
not fail the pass (the resolution result is as if the mapping were absent),
while a file that opens but fails ELF parsing fails the entire resolution for
the pid, making `attach` return an error with no attachment formed. -/
theorem c7_failure_policy :
    (∀ (fs : String → LibFile) (pre post : List MemMapping) (m : MemMapping)
      (p : String), m.offset = 0 → m.filename = some p →
      startsWithSlash p = true → fs p = LibFile.cantOpen →
      get_symbols fs (pre ++ m :: post) = get_symbols fs (pre ++ post)) ∧
    (∀ (fs : String → LibFile) (maps : List MemMapping) (m : MemMapping)
      (p : String) (seizeOk : Bool) (taNew : TdErr),
      m ∈ maps → m.offset = 0 → m.filename = some p →
      startsWithSlash p = true → fs p = LibFile.parseError →
      get_symbols fs maps = Except.error () ∧
      attach fs maps seizeOk taNew = Except.error TdErr.Err) := by
  constructor
  · intro fs pre post m p hoff hfn habs hfs
    have hmc : mapContribution fs m = Except.ok [] := by
      simp [mapContribution, hoff, hfn, habs, get_symbols_for_library, hfs]
    rw [get_symbols, get_symbols, getSymbolsGo_append, getSymbolsGo_append]
    cases hpre : getSymbolsGo fs (fun _ => none) pre with
    | error e => rfl
    | ok acc =>
      show getSymbolsGo fs acc (m :: post) = getSymbolsGo fs acc post
      rw [getSymbolsGo, hmc]
      exact rfl
  · intro fs maps m p seizeOk taNew hm hoff hfn habs hfs
    obtain ⟨pre, post, rfl⟩ := List.mem_iff_append.mp hm
    have hmc : mapContribution fs m = Except.error () := by
      simp [mapContribution, hoff, hfn, habs, get_symbols_for_library, hfs]
    have hg : get_symbols fs (pre ++ m :: post) = Except.error () := by
      rw [get_symbols, getSymbolsGo_append]
      cases hpre : getSymbolsGo fs (fun _ => none) pre with
      | error e => cases e; rfl
      | ok acc =>
        show getSymbolsGo fs acc (m :: post) = Except.error ()
        rw [getSymbolsGo, hmc]
    exact ⟨hg, by simp [attach, hg]⟩

/-- File system holding one unreadable path and one unparsable path. -/
def fsC7 : String → LibFile := fun p =>
  if p = "/bad-elf" then LibFile.parseError else LibFile.cantOpen

/-- C7 witness: the unreadable mapping is skipped without failing the pass;
the unparsable mapping fails resolution and `attach`. -/
theorem c7_failure_policy_witness :
    get_symbols fsC7 ([] ++ MemMapping.mk 400 10 0 (some "/open-fails") :: [])
      = get_symbols fsC7 ([] ++ []) ∧
    (get_symbols fsC7 [MemMapping.mk 700 10 0 (some "/bad-elf")]
        = Except.error () ∧
      attach fsC7 [MemMapping.mk 700 10 0 (some "/bad-elf")] true TdErr.Ok
        = Except.error TdErr.Err) :=
  ⟨c7_failure_policy.1 fsC7 [] [] (MemMapping.mk 400 10 0 (some "/open-fails"))
      "/open-fails" rfl rfl (by decide) (by decide),
    c7_failure_policy.2 fsC7 [MemMapping.mk 700 10 0 (some "/bad-elf")]
      (MemMapping.mk 700 10 0 (some "/bad-elf")) "/bad-elf" true TdErr.Ok
      (List.mem_cons_self _ _) rfl rfl (by decide) (by decide)⟩

/-- C9: `ps_pglobal_lookup` never consults the object name, returns the
dedicated `NoSym` code (and no address) for a name absent from the index,
and returns `Ok` with the indexed address for a present name. -/
theorem c9_lookup_outcome (symbols : SymIndex) (objectName symName : String) :
    (∀ other : String, ps_pglobal_lookup symbols objectName symName
        = ps_pglobal_lookup symbols other symName) ∧
    (symbols symName = none →
      ps_pglobal_lookup symbols objectName symName = (PsErr.NoSym, none)) ∧
    (∀ a : Nat, symbols symName = some a →
      ps_pglobal_lookup symbols objectName symName = (PsErr.Ok, some a)) := by
  refine ⟨fun other => rfl, fun h => ?_, fun a h => ?_⟩ <;>
    simp [ps_pglobal_lookup, h]

/-- A small concrete symbol index. -/
def sampleIndex : SymIndex := fun s =>
  if s = "nptl_version" then some 4096 else none

/-- C9 witness: an absent name yields `NoSym`, a present one yields `Ok`
with its address. -/
theorem c9_lookup_outcome_witness :
    ps_pglobal_lookup sampleIndex "libpthread.so" "absent_name"
      = (PsErr.NoSym, none) ∧
    ps_pglobal_lookup sampleIndex "libpthread.so" "nptl_version"
      = (PsErr.Ok, some 4096) :=
  ⟨(c9_lookup_outcome sampleIndex "libpthread.so" "absent_name").2.1
      (by decide),
    (c9_lookup_outcome sampleIndex "libpthread.so" "nptl_version").2.2 4096
      (by decide)⟩

end LibThreadDb
